import Mathlib

/-!
Verification of `scripts/build/command.py`: the `LineBuffer` byte-to-line
reassembler and the `Command` process runner (`_run`, `run`, `check`, `eval`),
shallowly embedded over lists of bytes (`Nat`) and explicit event traces.
-/

namespace CommandPy

/-- The line separator byte, `b"\n"` (code point 10). -/
def sepByte : Nat := 10

/-- State of a `LineBuffer`: the contents of its `io.BytesIO` pending buffer
(`self._buffer`).  The sink (`stream` or `log`) is modelled separately, see
`writeLine` below; `write`/`flush` return the emitted lines in order. -/
structure LineBuffer where
  pending : List Nat
deriving DecidableEq, Repr

/-- Model of `data.find(b"\n")` together with the two slices `data[0:index]` and
`data[index+1:]` that `LineBuffer.write` takes at the found index:
`none` when no separator occurs in `data`. -/
def findSep : List Nat → Option (List Nat × List Nat)
  | [] => none
  | c :: rest =>
    if c = sepByte then some ([], rest)
    else
      match findSep rest with
      | none => none
      | some (pre, post) => some (c :: pre, post)

theorem findSep_some_length {data pre post : List Nat}
    (h : findSep data = some (pre, post)) : post.length < data.length := by
  induction data generalizing pre post with
  | nil => simp [findSep] at h
  | cons c rest ih =>
    by_cases hc : c = sepByte
    · simp [findSep, hc] at h
      simp [← h.2]
    · simp only [findSep, hc, if_false] at h
      cases hf : findSep rest with
      | none => simp [hf] at h
      | some pr =>
        obtain ⟨pre', post'⟩ := pr
        rw [hf] at h
        simp at h
        obtain ⟨-, h2⟩ := h
        have := ih hf
        simp [← h2]
        omega

/-- Model of `LineBuffer.write(data)`: repeatedly find the first separator, emit the
pending buffer prepended to the bytes before it, and continue on the slice
after it; any remaining data is appended to the pending buffer.  Returns the
new state and the lines passed to `_write_line`, in order. -/
def LineBuffer.write (b : LineBuffer) (data : List Nat) :
    LineBuffer × List (List Nat) :=
  match h : findSep data with
  | none => (⟨b.pending ++ data⟩, [])
  | some (line, rest) =>
    let r := LineBuffer.write ⟨[]⟩ rest
    (r.1, (b.pending ++ line) :: r.2)
termination_by data.length
decreasing_by exact findSep_some_length h

/-- Model of `LineBuffer.flush()`: if the pending buffer is non-empty, emit it as one
final line and clear it; otherwise do nothing. -/
def LineBuffer.flush (b : LineBuffer) : LineBuffer × List (List Nat) :=
  if b.pending ≠ [] then (⟨[]⟩, [b.pending]) else (b, [])

/-- A sequence of `write` calls, collecting all emitted lines in order. -/
def LineBuffer.writeAll : LineBuffer → List (List Nat) → LineBuffer × List (List Nat)
  | b, [] => (b, [])
  | b, c :: cs =>
    let r := b.write c
    let r2 := LineBuffer.writeAll r.1 cs
    (r2.1, r.2 ++ r2.2)

/-- All lines emitted by a fresh `LineBuffer` fed the given chunks via `write`
and then flushed once. -/
def sessionLines (chunks : List (List Nat)) : List (List Nat) :=
  let r := LineBuffer.writeAll ⟨[]⟩ chunks
  r.2 ++ r.1.flush.2

/-- Splitting a byte string on the separator byte: the segments between
separators, including an empty first/last segment when the string starts/ends
with a separator (so `splitSep B` always has one more element than the number
of separators in `B`). -/
def splitSep : List Nat → List (List Nat)
  | [] => [[]]
  | c :: rest =>
    if c = sepByte then [] :: splitSep rest
    else
      match splitSep rest with
      | [] => [[c]]
      | l :: ls => (c :: l) :: ls

/-- Drop the last segment of a split when it is empty: a byte string that ends
with a separator (or is empty) has no trailing unterminated segment. -/
def dropEmptyLast (parts : List (List Nat)) : List (List Nat) :=
  if parts.getLast? = some [] then parts.dropLast else parts

/-- The lines of a byte string as the spec words them (claim C1's right-hand
side): the segments obtained by splitting on the separator byte, in order; a
trailing unterminated segment counts as the final line, and an empty string
has no lines. -/
def specLines (B : List Nat) : List (List Nat) :=
  dropEmptyLast (splitSep B)

theorem splitSep_ne_nil (B : List Nat) : splitSep B ≠ [] := by
  cases B with
  | nil => simp [splitSep]
  | cons c rest =>
    by_cases hc : c = sepByte
    · simp [splitSep, hc]
    · simp only [splitSep, hc, if_false]
      cases h : splitSep rest <;> simp

theorem dropEmptyLast_cons (x : List Nat) (L : List (List Nat)) (h : L ≠ []) :
    dropEmptyLast (x :: L) = x :: dropEmptyLast L := by
  obtain ⟨y, ys, rfl⟩ := List.exists_cons_of_ne_nil h
  unfold dropEmptyLast
  simp only [List.getLast?_cons_cons]
  split <;> simp [List.dropLast]

theorem LineBuffer.write_eq_of_none {data : List Nat} (b : LineBuffer)
    (h : findSep data = none) : b.write data = (⟨b.pending ++ data⟩, []) := by
  rw [LineBuffer.write]
  split
  · rfl
  · next heq => rw [h] at heq; cases heq

theorem LineBuffer.write_eq_of_some {data line rest : List Nat} (b : LineBuffer)
    (h : findSep data = some (line, rest)) :
    b.write data =
      ((LineBuffer.write ⟨[]⟩ rest).1,
        (b.pending ++ line) :: (LineBuffer.write ⟨[]⟩ rest).2) := by
  rw [LineBuffer.write]
  split
  · next heq => rw [h] at heq; cases heq
  · next l r heq =>
    rw [h] at heq
    simp only [Option.some.injEq, Prod.mk.injEq] at heq
    obtain ⟨rfl, rfl⟩ := heq
    rfl

theorem LineBuffer.write_nil (b : LineBuffer) : b.write [] = (b, []) := by
  have h : findSep ([] : List Nat) = none := rfl
  rw [LineBuffer.write_eq_of_none b h]
  simp

theorem findSep_cons_sep (data : List Nat) :
    findSep (sepByte :: data) = some ([], data) := by
  simp [findSep]

theorem findSep_cons_of_ne {c : Nat} (hc : c ≠ sepByte) (data : List Nat) :
    findSep (c :: data) =
      match findSep data with
      | none => none
      | some (pre, post) => some (c :: pre, post) := by
  simp [findSep, hc]

theorem LineBuffer.write_cons (b : LineBuffer) (c : Nat) (data : List Nat) :
    b.write (c :: data) =
      if c = sepByte then
        ((LineBuffer.write ⟨[]⟩ data).1, b.pending :: (LineBuffer.write ⟨[]⟩ data).2)
      else LineBuffer.write ⟨b.pending ++ [c]⟩ data := by
  by_cases hc : c = sepByte
  · subst hc
    rw [if_pos rfl, LineBuffer.write_eq_of_some b (findSep_cons_sep data)]
    simp
  · rw [if_neg hc]
    cases hf : findSep data with
    | none =>
      have hf2 : findSep (c :: data) = none := by
        rw [findSep_cons_of_ne hc, hf]
      rw [LineBuffer.write_eq_of_none b hf2,
        LineBuffer.write_eq_of_none (⟨b.pending ++ [c]⟩ : LineBuffer) hf]
      simp
    | some pr =>
      obtain ⟨pre, post⟩ := pr
      have hf2 : findSep (c :: data) = some (c :: pre, post) := by
        rw [findSep_cons_of_ne hc, hf]
      rw [LineBuffer.write_eq_of_some b hf2,
        LineBuffer.write_eq_of_some (⟨b.pending ++ [c]⟩ : LineBuffer) hf]
      simp

/-- Writing the concatenation of two byte strings emits and buffers exactly as
writing them one after the other: `write` is invariant under re-chunking. -/
theorem LineBuffer.write_append (b : LineBuffer) (d1 d2 : List Nat) :
    b.write (d1 ++ d2) =
      ((LineBuffer.write (b.write d1).1 d2).1,
        (b.write d1).2 ++ (LineBuffer.write (b.write d1).1 d2).2) := by
  induction d1 generalizing b with
  | nil => simp [LineBuffer.write_nil]
  | cons c d1 ih =>
    by_cases hc : c = sepByte
    · simp only [List.cons_append, LineBuffer.write_cons, if_pos hc]
      rw [ih ⟨[]⟩]
    · simp only [List.cons_append, LineBuffer.write_cons, if_neg hc]
      exact ih ⟨b.pending ++ [c]⟩

/-- A sequence of `write` calls is equivalent to a single `write` of the
concatenation of all the chunks. -/
theorem LineBuffer.writeAll_eq_write_flatten (b : LineBuffer) (chunks : List (List Nat)) :
    LineBuffer.writeAll b chunks = b.write chunks.flatten := by
  induction chunks generalizing b with
  | nil => simp [LineBuffer.writeAll, LineBuffer.write_nil]
  | cons c cs ih =>
    rw [List.flatten_cons, LineBuffer.write_append]
    simp only [LineBuffer.writeAll, ih]

/-- Prepend `p` to the first segment of a split (the previously pending tail
belongs to the first line completed by the incoming data). -/
def consHead (p : List Nat) : List (List Nat) → List (List Nat)
  | [] => [p]
  | l :: ls => (p ++ l) :: ls

theorem consHead_nil_eq (L : List (List Nat)) (h : L ≠ []) : consHead [] L = L := by
  obtain ⟨l, ls, rfl⟩ := List.exists_cons_of_ne_nil h
  simp [consHead]

/-- One `write` followed by one `flush` emits the split of the written bytes,
with the previously pending tail glued onto the first segment and an empty
trailing segment not emitted. -/
theorem LineBuffer.write_flush (b : LineBuffer) (B : List Nat) :
    (b.write B).2 ++ (b.write B).1.flush.2 =
      dropEmptyLast (consHead b.pending (splitSep B)) := by
  induction B generalizing b with
  | nil =>
    rw [LineBuffer.write_nil]
    simp only [splitSep, consHead, List.append_nil, dropEmptyLast, LineBuffer.flush]
    by_cases hp : b.pending = []
    · simp [hp]
    · simp [hp]
  | cons c B ih =>
    by_cases hc : c = sepByte
    · subst hc
      rw [LineBuffer.write_cons, if_pos rfl]
      have hsplit : splitSep (sepByte :: B) = [] :: splitSep B := by
        simp [splitSep]
      rw [hsplit]
      simp only [consHead, List.append_nil]
      rw [dropEmptyLast_cons _ _ (splitSep_ne_nil B)]
      have := ih ⟨[]⟩
      rw [consHead_nil_eq _ (splitSep_ne_nil B)] at this
      rw [List.cons_append, this]
    · rw [LineBuffer.write_cons, if_neg hc]
      rw [ih ⟨b.pending ++ [c]⟩]
      cases hs : splitSep B with
      | nil => exact absurd hs (splitSep_ne_nil B)
      | cons l ls =>
        have hsplit : splitSep (c :: B) = (c :: l) :: ls := by
          rw [splitSep, if_neg hc, hs]
        rw [hsplit]
        simp [consHead]

/-- Claim C1: for every byte string and every chunking of it, writing the
chunks in order to a fresh `LineBuffer` and flushing once emits exactly the
separator-split of the concatenated bytes, in order, with a trailing
unterminated segment as the final line and no lines for an empty string. -/
theorem claim_C1_write_chunks_flush_splits (chunks : List (List Nat)) :
    sessionLines chunks = specLines chunks.flatten := by
  unfold sessionLines specLines
  rw [LineBuffer.writeAll_eq_write_flatten, LineBuffer.write_flush]
  rw [consHead_nil_eq _ (splitSep_ne_nil _)]

theorem LineBuffer.write_pending_no_sep (b : LineBuffer) (data : List Nat)
    (h : sepByte ∉ b.pending) : sepByte ∉ ((b.write data).1).pending := by
  induction data generalizing b with
  | nil => rw [LineBuffer.write_nil]; exact h
  | cons c data ih =>
    by_cases hc : c = sepByte
    · rw [LineBuffer.write_cons, if_pos hc]
      exact ih ⟨[]⟩ (by simp)
    · rw [LineBuffer.write_cons, if_neg hc]
      refine ih ⟨b.pending ++ [c]⟩ ?_
      intro hmem
      rcases List.mem_append.mp hmem with h1 | h1
      · exact h h1
      · rw [List.mem_singleton] at h1
        exact hc h1.symm

theorem LineBuffer.flush_pending_nil (b : LineBuffer) : (b.flush.1).pending = [] := by
  by_cases hp : b.pending = [] <;> simp [LineBuffer.flush, hp]

/-- Claim C8: after any `write` the pending buffer holds no separator byte
(provided it held none before, as is the case for every reachable state), and
`flush` always leaves the pending buffer empty, so a second consecutive
`flush` emits nothing. -/
theorem claim_C8_pending_invariant (b : LineBuffer) (data : List Nat)
    (h : sepByte ∉ b.pending) :
    sepByte ∉ ((b.write data).1).pending ∧
    (b.flush.1).pending = [] ∧
    ((b.flush.1).flush).2 = [] := by
  refine ⟨LineBuffer.write_pending_no_sep b data h, LineBuffer.flush_pending_nil b, ?_⟩
  rcases hb : b.flush with ⟨b', ls⟩
  have hx : b'.pending = [] := by
    have := LineBuffer.flush_pending_nil b
    rw [hb] at this
    exact this
  simp [LineBuffer.flush, hx]

theorem claim_C8_witness :
    sepByte ∉ ([97] : List Nat) ∧
    (sepByte ∉ ((LineBuffer.write ⟨[97]⟩ [98, 10, 99]).1).pending ∧
      (((⟨[97]⟩ : LineBuffer).flush).1).pending = [] ∧
      ((((⟨[97]⟩ : LineBuffer).flush).1).flush).2 = []) :=
  ⟨by decide, claim_C8_pending_invariant ⟨[97]⟩ [98, 10, 99] (by decide)⟩

/-- Claim C10: `write` of an empty byte string changes nothing in any state —
no line is emitted, the pending buffer is untouched, and a subsequent `flush`
behaves exactly as it would have without the empty write. -/
theorem claim_C10_empty_write_noop (b : LineBuffer) :
    b.write [] = (b, []) ∧ ((b.write []).1).flush = b.flush := by
  refine ⟨LineBuffer.write_nil b, ?_⟩
  rw [LineBuffer.write_nil]

/-- Strict UTF-8 decoding of a byte sequence into code points, as
`bytes.decode("utf-8")` accepts it (errors are strict): continuation bytes
are `0x80..0xBF`, overlong encodings, surrogates (`0xD800..0xDFFF`) and code
points above `0x10FFFF` are rejected.  `none` models the raised
`UnicodeDecodeError`. -/
def utf8Decode (l : List Nat) : Option (List Nat) :=
  match l with
  | [] => some []
  | b :: rest =>
    if b < 0x80 then
      match utf8Decode rest with
      | none => none
      | some cps => some (b :: cps)
    else if b < 0xC2 then none
    else if b < 0xE0 then
      match rest with
      | [] => none
      | b2 :: rest2 =>
        if 0x80 ≤ b2 ∧ b2 < 0xC0 then
          match utf8Decode rest2 with
          | none => none
          | some cps => some (((b - 0xC0) * 0x40 + (b2 - 0x80)) :: cps)
        else none
    else if b < 0xF0 then
      match rest with
      | b2 :: b3 :: rest3 =>
        if (if b = 0xE0 then 0xA0 else 0x80) ≤ b2 ∧ b2 < (if b = 0xED then 0xA0 else 0xC0) ∧
            0x80 ≤ b3 ∧ b3 < 0xC0 then
          match utf8Decode rest3 with
          | none => none
          | some cps =>
            some (((b - 0xE0) * 0x1000 + (b2 - 0x80) * 0x40 + (b3 - 0x80)) :: cps)
        else none
      | _ => none
    else if b < 0xF5 then
      match rest with
      | b2 :: b3 :: b4 :: rest4 =>
        if (if b = 0xF0 then 0x90 else 0x80) ≤ b2 ∧ b2 < (if b = 0xF4 then 0x90 else 0xC0) ∧
            0x80 ≤ b3 ∧ b3 < 0xC0 ∧ 0x80 ≤ b4 ∧ b4 < 0xC0 then
          match utf8Decode rest4 with
          | none => none
          | some cps =>
            some (((b - 0xF0) * 0x40000 + (b2 - 0x80) * 0x1000 + (b3 - 0x80) * 0x40 +
              (b4 - 0x80)) :: cps)
        else none
      | _ => none
    else none
termination_by structural l

theorem utf8Decode_ascii : utf8Decode [104, 105] = some [104, 105] := by decide

theorem utf8Decode_euro : utf8Decode [0xE2, 0x82, 0xAC] = some [0x20AC] := by decide

theorem utf8Decode_lone_cont : utf8Decode [0xFF] = none := by decide

theorem utf8Decode_overlong : utf8Decode [0xC0, 0xAF] = none := by decide

theorem utf8Decode_surrogate : utf8Decode [0xED, 0xA0, 0x80] = none := by decide

/-- Model of `LineBuffer._write_line(line)`: with an explicit stream, append the line
bytes and one separator byte to it; with no stream, decode the line as UTF-8
and append it to the log as one informational record.  `none` models a
propagated decode error. -/
def writeLine (stream : Option (List Nat)) (log : List (List Nat)) (line : List Nat) :
    Option (Option (List Nat) × List (List Nat)) :=
  match stream with
  | some s => some (some (s ++ line ++ [sepByte]), log)
  | none =>
    match utf8Decode line with
    | some text => some (none, log ++ [text])
    | none => none

/-- Claim C7: an emitted line goes to the explicit stream as the line bytes
followed by exactly one separator byte when a stream was given; with no
stream it is decoded as UTF-8 and recorded as exactly one informational log
entry, and a decode failure propagates instead of being substituted. -/
theorem claim_C7_write_line_sinks (s : List Nat) (log : List (List Nat)) (line : List Nat) :
    writeLine (some s) log line = some (some (s ++ line ++ [sepByte]), log) ∧
    (∀ text, utf8Decode line = some text →
      writeLine none log line = some (none, log ++ [text])) ∧
    (utf8Decode line = none → writeLine none log line = none) := by
  refine ⟨rfl, ?_, ?_⟩
  · intro text h
    simp [writeLine, h]
  · intro h
    simp [writeLine, h]

/-- The four pipe file descriptors `_run` creates: `out_reader, out_writer =
os.pipe()` and `err_reader, err_writer = os.pipe()`. -/
inductive PipeEnd where
  | outReader
  | outWriter
  | errReader
  | errWriter
deriving DecidableEq, Repr

/-- The three optional path parameters of `Command.run`. -/
inductive StdParam where
  | stdinP
  | stdoutP
  | stderrP
deriving DecidableEq, Repr

/-- The `open` modes `"rb"` and `"wb"`. -/
inductive FileMode where
  | rb
  | wb
deriving DecidableEq, Repr

/-- Observable steps of `Command.run` / `Command._run` / `Command.eval`, in
the order the code performs them. -/
inductive Ev where
  | logRunning (args : List String)
  | pipeCreate (forOut : Bool)
  | spawn (ok : Bool)
  | fdRead (e : PipeEnd) (bytes : List Nat)
  | pollCheck (exited : Bool)
  | selectorClose
  | procWait (code : Int)
  | fdClose (e : PipeEnd)
  | bufFlush (e : PipeEnd)
  | fileOpen (p : StdParam) (m : FileMode)
  | fileClose (p : StdParam)
  | logEvaluating (command : String)
  | spawnPiped
  | communicate
deriving DecidableEq, Repr

/-- One iteration of the drain loop as the environment drives it: the bytes
available on each pipe during this poll cycle ( `[]` = the source is not
reported ready / `FIONREAD` returns 0) and whether `process.poll()` reports
the child exited at the end of the cycle. -/
structure Cycle where
  outAvail : List Nat
  errAvail : List Nat
  exited : Bool
deriving DecidableEq, Repr

/-- The environment of one `_run` invocation: whether `subprocess.Popen`
succeeds, the poll cycles the loop observes, the exit status `process.wait()`
returns, and the bytes still available on each pipe at the final drain. -/
structure Sched where
  spawnOk : Bool
  cycles : List Cycle
  exitCode : Int
  finalOut : List Nat
  finalErr : List Nat
deriving DecidableEq, Repr

/-- Model of `Command._process(fd, buf)`: query the available byte count, and only
when it is positive read exactly that many bytes and feed them to the
buffer. -/
def processFd (e : PipeEnd) (avail : List Nat) (b : LineBuffer) : LineBuffer × List Ev :=
  if 0 < avail.length then ((b.write avail).1, [Ev.fdRead e avail]) else (b, [])

/-- The `while True` loop of `_run`: each cycle processes every source the
selector reports ready, and only then checks `process.poll()`, breaking when
the child has exited.  Returns the two buffer states and the event trace. -/
def drainLoop : List Cycle → LineBuffer → LineBuffer → LineBuffer × LineBuffer × List Ev
  | [], ob, eb => (ob, eb, [])
  | cy :: rest, ob, eb =>
    let po := processFd .outReader cy.outAvail ob
    let pe := processFd .errReader cy.errAvail eb
    if cy.exited then
      (po.1, pe.1, po.2 ++ pe.2 ++ [Ev.pollCheck true])
    else
      let r := drainLoop rest po.1 pe.1
      (r.1, r.2.1, po.2 ++ pe.2 ++ [Ev.pollCheck false] ++ r.2.2)

/-- The exceptions the embedded code can raise. -/
inductive RunErr where
  | spawnFailure
  | openFailure (p : StdParam)
  | attrError (p : StdParam)
  | nonzeroExit (code : Int)
  | evalNonzeroExit (command : String) (code : Int)
  | decodeFailure
deriving DecidableEq, Repr

/-- A command object: `self._command` (the base argument vector).  The log,
environment mapping and working directory do not affect the properties
modelled here. -/
structure Command where
  command : List String
deriving DecidableEq, Repr

/-- Model of `Command._args`: base argument vector plus call-time arguments. -/
def Command._args (c : Command) (args : List String) : List String :=
  c.command ++ args

/-- Model of `Command._run`: log the invocation, create the two pipes, start the
child, drain until exit, close the selector, wait, final-drain both pipes,
close the four descriptors, flush both buffers and return the exit status.
When `Popen` raises, the exception propagates with no further step — in
particular none of the four pipe descriptors is closed. -/
def Command._runM (args : List String) (sched : Sched) : Except RunErr Int × List Ev :=
  let pre : List Ev := [.logRunning args, .pipeCreate true, .pipeCreate false]
  if sched.spawnOk then
    let L := drainLoop sched.cycles ⟨[]⟩ ⟨[]⟩
    let d1 := processFd .outReader sched.finalOut L.1
    let d2 := processFd .errReader sched.finalErr L.2.1
    (.ok sched.exitCode,
      pre ++ [.spawn true] ++ L.2.2
        ++ [.selectorClose, .procWait sched.exitCode]
        ++ d1.2 ++ d2.2
        ++ [.fdClose .outWriter, .fdClose .outReader, .fdClose .errWriter, .fdClose .errReader]
        ++ [.bufFlush .outReader, .bufFlush .errReader])
  else
    (.error .spawnFailure, pre ++ [.spawn false])

/-- The environment of one `Command.run` invocation: for each of the three
optional path parameters, `none` when the parameter is not given, and
`some ok` when it is a path whose `open` succeeds (`ok = true`) or raises
(`ok = false`); plus the `_run` environment. -/
structure RunEnv where
  stdinGiven : Option Bool
  stdoutGiven : Option Bool
  stderrGiven : Option Bool
  sched : Sched
deriving DecidableEq, Repr

/-- One `if x is not None: x = open(x, mode)` step of `run`'s try block. -/
def tryOpen (p : StdParam) (m : FileMode) (given : Option Bool) :
    Except RunErr (Bool × List Ev) :=
  match given with
  | none => .ok (false, [])
  | some true => .ok (true, [Ev.fileOpen p m])
  | some false => .error (.openFailure p)

/-- The try block of `Command.run`: open stdin (`"rb"`), stdout (`"wb"`),
stderr (`"wb"`) in that order, then delegate to `_run`.  Returns the
outcome, which parameters were actually opened, and the events. -/
def runBody (c : Command) (args : List String) (env : RunEnv) :
    Except RunErr Int × (Bool × Bool × Bool) × List Ev :=
  match tryOpen .stdinP .rb env.stdinGiven with
  | .error e => (.error e, (false, false, false), [])
  | .ok (oIn, e1) =>
    match tryOpen .stdoutP .wb env.stdoutGiven with
    | .error e => (.error e, (oIn, false, false), e1)
    | .ok (oOut, e2) =>
      match tryOpen .stderrP .wb env.stderrGiven with
      | .error e => (.error e, (oIn, oOut, false), e1 ++ e2)
      | .ok (oErr, e3) =>
        let r := Command._runM (c._args args) env.sched
        (r.1, (oIn, oOut, oErr), e1 ++ e2 ++ e3 ++ r.2)

/-- One `if x is not None: x.close()` step of `run`'s finally block: skipped
when the parameter was not given; a close when the file was opened; an
`AttributeError` (calling `.close()` on the path string) when the parameter
was given but its `open` never succeeded. -/
def finallyClose (p : StdParam) (given : Option Bool) (opened : Bool) :
    Except RunErr (List Ev) :=
  match given with
  | none => .ok []
  | some _ => if opened then .ok [Ev.fileClose p] else .error (.attrError p)

/-- The finally block of `Command.run`: close stdin, stdout, stderr in that
order; an exception raised by one step aborts the remaining steps and
propagates. -/
def runFinally (env : RunEnv) (opened : Bool × Bool × Bool) :
    Except RunErr Unit × List Ev :=
  match finallyClose .stdinP env.stdinGiven opened.1 with
  | .error e => (.error e, [])
  | .ok e1 =>
    match finallyClose .stdoutP env.stdoutGiven opened.2.1 with
    | .error e => (.error e, e1)
    | .ok e2 =>
      match finallyClose .stderrP env.stderrGiven opened.2.2 with
      | .error e => (.error e, e1 ++ e2)
      | .ok e3 => (.ok (), e1 ++ e2 ++ e3)

/-- Model of `Command.run`: the try block and the finally block; an exception raised
in the finally block replaces the try block's outcome, as in Python. -/
def Command.run (c : Command) (args : List String) (env : RunEnv) :
    Except RunErr Int × List Ev :=
  let b := runBody c args env
  let f := runFinally env b.2.1
  (match f.1 with
    | .error e => .error e
    | .ok _ => b.1,
   b.2.2 ++ f.2)

/-- Model of `Command.check`: run, and raise an exception carrying the exit code when
it is nonzero. -/
def Command.check (c : Command) (args : List String) (env : RunEnv) :
    Except RunErr Unit × List Ev :=
  let r := c.run args env
  (match r.1 with
    | .error e => .error e
    | .ok code => if code ≠ 0 then .error (.nonzeroExit code) else .ok (),
   r.2)

/-- A single blank: the separator of `" ".join(_args)`. -/
def blankSep : String := " "

/-- The environment of one `Command.eval` invocation: the bytes the child
wrote to its (piped) stdout, and its exit status. -/
structure EvalEnv where
  output : List Nat
  exitCode : Int
deriving DecidableEq, Repr

/-- Model of `Command.eval`: log the joined command line, start the child with stdout
and stderr redirected to in-memory pipes, `communicate`, wait; raise an
exception carrying the joined command line and the exit code when it is
nonzero, otherwise return the captured stdout decoded as UTF-8 (raw, not
line-split). -/
def Command.eval (c : Command) (args : List String) (env : EvalEnv) :
    Except RunErr (List Nat) × List Ev :=
  let command := String.intercalate blankSep (c._args args)
  let evs : List Ev := [.logEvaluating command, .spawnPiped, .communicate,
    .procWait env.exitCode]
  if env.exitCode ≠ 0 then
    (.error (.evalNonzeroExit command env.exitCode), evs)
  else
    (match utf8Decode env.output with
      | some text => .ok text
      | none => .error .decodeFailure,
     evs)

/-- The read events `_process` produces for one source in one cycle. -/
def readEvs (e : PipeEnd) (avail : List Nat) : List Ev :=
  if 0 < avail.length then [Ev.fdRead e avail] else []

theorem processFd_fst (e : PipeEnd) (avail : List Nat) (b : LineBuffer) :
    (processFd e avail b).1 = (b.write avail).1 := by
  unfold processFd
  by_cases h : 0 < avail.length
  · simp [h]
  · have hnil : avail = [] := by
      cases avail with
      | nil => rfl
      | cons x xs => simp at h
    simp [h, hnil, LineBuffer.write_nil]

theorem processFd_snd (e : PipeEnd) (avail : List Nat) (b : LineBuffer) :
    (processFd e avail b).2 = readEvs e avail := by
  unfold processFd readEvs
  by_cases h : 0 < avail.length <;> simp [h]

/-- The cycles the drain loop actually processes: every cycle up to and
including the first one whose poll reports the child exited. -/
def takeUntilExit : List Cycle → List Cycle
  | [] => []
  | cy :: rest => if cy.exited then [cy] else cy :: takeUntilExit rest

/-- The events of one processed cycle: the reads of every ready source,
followed by the exit check. -/
def cycleEvs (cy : Cycle) : List Ev :=
  readEvs .outReader cy.outAvail ++ readEvs .errReader cy.errAvail ++
    [Ev.pollCheck cy.exited]

/-- Claim C4: the drain loop's trace decomposes cycle by cycle — within every
processed cycle all ready sources are read (and their bytes fed to the
associated accumulator) strictly before that cycle's exit check, and the
cycle in which the exit is detected is still fully processed: the final
buffer states have absorbed the bytes of every processed cycle, the exiting
one included. -/
theorem claim_C4_reads_precede_exit_check (cycles : List Cycle) (ob eb : LineBuffer) :
    (drainLoop cycles ob eb).2.2 = ((takeUntilExit cycles).map cycleEvs).flatten ∧
    (drainLoop cycles ob eb).1 =
      (LineBuffer.writeAll ob ((takeUntilExit cycles).map Cycle.outAvail)).1 ∧
    (drainLoop cycles ob eb).2.1 =
      (LineBuffer.writeAll eb ((takeUntilExit cycles).map Cycle.errAvail)).1 := by
  induction cycles generalizing ob eb with
  | nil =>
    simp [drainLoop, takeUntilExit, LineBuffer.writeAll]
  | cons cy rest ih =>
    by_cases hcy : cy.exited
    · refine ⟨?_, ?_, ?_⟩
      · simp [drainLoop, takeUntilExit, hcy, cycleEvs, processFd_snd]
      · simp [drainLoop, takeUntilExit, hcy, LineBuffer.writeAll, processFd_fst]
      · simp [drainLoop, takeUntilExit, hcy, LineBuffer.writeAll, processFd_fst]
    · have hf : cy.exited = false := by
        cases hx : cy.exited
        · rfl
        · exact absurd hx hcy
      obtain ⟨ih1, ih2, ih3⟩ :=
        ih (processFd .outReader cy.outAvail ob).1 (processFd .errReader cy.errAvail eb).1
      simp only [processFd_fst] at ih1 ih2 ih3
      refine ⟨?_, ?_, ?_⟩
      · simp [drainLoop, takeUntilExit, hf, cycleEvs, processFd_snd, processFd_fst, ih1]
      · simp [drainLoop, takeUntilExit, hf, LineBuffer.writeAll, processFd_fst, ih2]
      · simp [drainLoop, takeUntilExit, hf, LineBuffer.writeAll, processFd_fst, ih3]

def Ev.isFdClose : Ev → Bool
  | .fdClose _ => true
  | _ => false

def Ev.isSpawn : Ev → Bool
  | .spawn _ => true
  | _ => false

/-- Claim C2 (what the code does on spawn failure): the exception from
`Popen` propagates immediately — no retry, exactly one spawn attempt — but
`_run` has no cleanup handler, so the trace ends at the failed spawn and none
of the four pipe descriptors created beforehand is ever closed. -/
theorem claim_C2_spawn_failure_leaks_pipes (args : List String) (sched : Sched)
    (h : sched.spawnOk = false) :
    (Command._runM args sched).1 = .error .spawnFailure ∧
    (Command._runM args sched).2 =
      [Ev.logRunning args, Ev.pipeCreate true, Ev.pipeCreate false, Ev.spawn false] ∧
    (Command._runM args sched).2.filter Ev.isFdClose = [] ∧
    ((Command._runM args sched).2.filter Ev.isSpawn).length = 1 := by
  refine ⟨?_, ?_, ?_, ?_⟩ <;>
    simp [Command._runM, h, Ev.isFdClose, Ev.isSpawn, List.filter]

theorem claim_C2_witness :
    (Command._runM ["ls"] ⟨false, [], 0, [], []⟩).1 = .error .spawnFailure ∧
    (Command._runM ["ls"] ⟨false, [], 0, [], []⟩).2 =
      [Ev.logRunning ["ls"], Ev.pipeCreate true, Ev.pipeCreate false, Ev.spawn false] ∧
    (Command._runM ["ls"] ⟨false, [], 0, [], []⟩).2.filter Ev.isFdClose = [] ∧
    ((Command._runM ["ls"] ⟨false, [], 0, [], []⟩).2.filter Ev.isSpawn).length = 1 :=
  claim_C2_spawn_failure_leaks_pipes ["ls"] ⟨false, [], 0, [], []⟩ rfl

/-- The post-loop step order stated by claim C3: one final best-effort drain
of both pipes, then the explicit wait, then the four descriptor closes, then
the two buffer flushes. -/
def postLoopOrderClaimed (args : List String) (sched : Sched) : Prop :=
  ∃ pre : List Ev,
    (Command._runM args sched).2 =
      pre ++ readEvs .outReader sched.finalOut ++ readEvs .errReader sched.finalErr
        ++ [Ev.procWait sched.exitCode]
        ++ [Ev.fdClose .outWriter, Ev.fdClose .outReader, Ev.fdClose .errWriter,
            Ev.fdClose .errReader]
        ++ [Ev.bufFlush .outReader, Ev.bufFlush .errReader]

/-- A schedule with one quiet exit-detecting cycle and one byte left for the
final drain. -/
def schedC3 : Sched := ⟨true, [⟨[], [], true⟩], 0, [97], []⟩

/-- Claim C3 as stated is false: in the code the explicit `process.wait()`
happens before the final drain, so at `schedC3` the wait event precedes the
final read and the claimed order does not hold. -/
theorem claim_C3_counterexample : ¬ postLoopOrderClaimed [] schedC3 := by
  intro hcl
  obtain ⟨pre, h⟩ := hcl
  have htr : (Command._runM [] schedC3).2 =
      [Ev.logRunning [], Ev.pipeCreate true, Ev.pipeCreate false, Ev.spawn true,
        Ev.pollCheck true, Ev.selectorClose, Ev.procWait 0,
        Ev.fdRead .outReader [97],
        Ev.fdClose .outWriter, Ev.fdClose .outReader, Ev.fdClose .errWriter,
        Ev.fdClose .errReader, Ev.bufFlush .outReader, Ev.bufFlush .errReader] := by
    simp [Command._runM, schedC3, drainLoop, processFd, readEvs]
  rw [htr] at h
  simp [schedC3, readEvs] at h
  have hlen := congrArg List.length h
  simp [List.length_append] at hlen
  have hp : pre.length = 6 := by omega
  have hd := congrArg (List.drop pre.length) h
  rw [List.drop_left] at hd
  rw [hp] at hd
  simp at hd

/-- Claim C3 amended: after the loop breaks the code closes the selector,
explicitly waits for the process, THEN performs the final best-effort drain
of both pipes (reading only currently-available bytes), then closes all four
pipe descriptors, then flushes both line buffers. -/
theorem claim_C3_amended_wait_then_drain (args : List String) (sched : Sched)
    (h : sched.spawnOk = true) :
    (Command._runM args sched).2 =
      [Ev.logRunning args, Ev.pipeCreate true, Ev.pipeCreate false, Ev.spawn true]
        ++ (drainLoop sched.cycles ⟨[]⟩ ⟨[]⟩).2.2
        ++ [Ev.selectorClose, Ev.procWait sched.exitCode]
        ++ readEvs .outReader sched.finalOut ++ readEvs .errReader sched.finalErr
        ++ [Ev.fdClose .outWriter, Ev.fdClose .outReader, Ev.fdClose .errWriter,
            Ev.fdClose .errReader]
        ++ [Ev.bufFlush .outReader, Ev.bufFlush .errReader] := by
  simp [Command._runM, h, processFd_snd]

theorem claim_C3_witness :
    (Command._runM [] schedC3).2 =
      [Ev.logRunning [], Ev.pipeCreate true, Ev.pipeCreate false, Ev.spawn true]
        ++ (drainLoop schedC3.cycles ⟨[]⟩ ⟨[]⟩).2.2
        ++ [Ev.selectorClose, Ev.procWait schedC3.exitCode]
        ++ readEvs .outReader schedC3.finalOut ++ readEvs .errReader schedC3.finalErr
        ++ [Ev.fdClose .outWriter, Ev.fdClose .outReader, Ev.fdClose .errWriter,
            Ev.fdClose .errReader]
        ++ [Ev.bufFlush .outReader, Ev.bufFlush .errReader] :=
  claim_C3_amended_wait_then_drain [] schedC3 rfl

theorem Command.run_ok (c : Command) (args : List String) (env : RunEnv)
    (hspawn : env.sched.spawnOk = true)
    (hin : env.stdinGiven ≠ some false)
    (hout : env.stdoutGiven ≠ some false)
    (herr : env.stderrGiven ≠ some false) :
    (c.run args env).1 = .ok env.sched.exitCode := by
  obtain ⟨gIn, gOut, gErr, sched⟩ := env
  dsimp only at hspawn hin hout herr ⊢
  have hIn : gIn = none ∨ gIn = some true := by
    rcases gIn with _ | b
    · exact Or.inl rfl
    · cases b
      · exact absurd rfl hin
      · exact Or.inr rfl
  have hOut : gOut = none ∨ gOut = some true := by
    rcases gOut with _ | b
    · exact Or.inl rfl
    · cases b
      · exact absurd rfl hout
      · exact Or.inr rfl
  have hErr : gErr = none ∨ gErr = some true := by
    rcases gErr with _ | b
    · exact Or.inl rfl
    · cases b
      · exact absurd rfl herr
      · exact Or.inr rfl
  rcases hIn with rfl | rfl <;> rcases hOut with rfl | rfl <;> rcases hErr with rfl | rfl <;>
    simp [Command.run, runBody, runFinally, tryOpen, finallyClose, Command._runM, hspawn]

/-- Claim C5: `run` returns exactly the child's exit status, and `check` on
the same invocation returns normally precisely when that status is zero and
raises an error carrying the exit code exactly when it is nonzero. -/
theorem claim_C5_run_check_exit_code (c : Command) (args : List String) (env : RunEnv)
    (hspawn : env.sched.spawnOk = true)
    (hin : env.stdinGiven ≠ some false)
    (hout : env.stdoutGiven ≠ some false)
    (herr : env.stderrGiven ≠ some false) :
    (c.run args env).1 = .ok env.sched.exitCode ∧
    ((c.check args env).1 = .ok () ↔ env.sched.exitCode = 0) ∧
    (env.sched.exitCode ≠ 0 →
      (c.check args env).1 = .error (.nonzeroExit env.sched.exitCode)) := by
  have hr := Command.run_ok c args env hspawn hin hout herr
  refine ⟨hr, ?_, ?_⟩
  · by_cases hz : env.sched.exitCode = 0 <;> simp [Command.check, hr, hz]
  · intro hz
    simp [Command.check, hr, hz]

/-- A child that exits with status 3, with no path parameters given. -/
def envC5 : RunEnv := ⟨none, none, none, ⟨true, [], 3, [], []⟩⟩

theorem claim_C5_witness :
    (Command.run ⟨["git"]⟩ ["st"] envC5).1 = .ok 3 ∧
    ((Command.check ⟨["git"]⟩ ["st"] envC5).1 = .ok () ↔ (3 : Int) = 0) ∧
    ((3 : Int) ≠ 0 →
      (Command.check ⟨["git"]⟩ ["st"] envC5).1 = .error (.nonzeroExit 3)) :=
  claim_C5_run_check_exit_code ⟨["git"]⟩ ["st"] envC5 rfl (by decide) (by decide) (by decide)

/-- Claim C6: `eval` runs the child with both output streams redirected to
in-memory pipes, communicates and waits; on a nonzero exit status it raises
an error carrying the space-joined command line and the exit code regardless
of the captured output, and on a zero exit status it returns the captured
stdout decoded as UTF-8, raw and not line-split. -/
theorem claim_C6_eval_output_and_error (c : Command) (args : List String) (env : EvalEnv) :
    (env.exitCode ≠ 0 →
      (c.eval args env).1 =
        .error (.evalNonzeroExit (String.intercalate blankSep (c._args args)) env.exitCode)) ∧
    (env.exitCode = 0 → ∀ text, utf8Decode env.output = some text →
      (c.eval args env).1 = .ok text) ∧
    (c.eval args env).2 =
      [Ev.logEvaluating (String.intercalate blankSep (c._args args)), Ev.spawnPiped,
        Ev.communicate, Ev.procWait env.exitCode] := by
  refine ⟨?_, ?_, ?_⟩
  · intro hz
    simp [Command.eval, hz]
  · intro hz text ht
    simp [Command.eval, hz, ht]
  · by_cases hz : env.exitCode = 0 <;> simp [Command.eval, hz]

theorem claim_C6_witness :
    (Command.eval ⟨["echo"]⟩ ["hi"] ⟨[104, 105], 2⟩).1 =
      .error (.evalNonzeroExit (String.intercalate blankSep (Command._args ⟨["echo"]⟩ ["hi"])) 2) ∧
    (Command.eval ⟨["echo"]⟩ ["hi"] ⟨[104, 105], 0⟩).1 = .ok [104, 105] := by
  constructor
  · exact (claim_C6_eval_output_and_error ⟨["echo"]⟩ ["hi"] ⟨[104, 105], 2⟩).1 (by decide)
  · exact (claim_C6_eval_output_and_error ⟨["echo"]⟩ ["hi"] ⟨[104, 105], 0⟩).2.1 rfl
      [104, 105] (by decide)

theorem claim_C7_witness :
    writeLine (some [65]) [] [66] = some (some ([65] ++ [66] ++ [sepByte]), []) ∧
    writeLine none [[72]] [104, 105] = some (none, [[72]] ++ [[104, 105]]) ∧
    writeLine none [] [0xFF] = none := by
  refine ⟨(claim_C7_write_line_sinks [65] [] [66]).1, ?_, ?_⟩
  · exact (claim_C7_write_line_sinks [] [[72]] [104, 105]).2.1 [104, 105] (by decide)
  · exact (claim_C7_write_line_sinks [] [] [0xFF]).2.2 (by decide)

def Ev.openInfo : Ev → Option (StdParam × FileMode)
  | .fileOpen p m => some (p, m)
  | _ => none

def Ev.closeInfo : Ev → Option StdParam
  | .fileClose p => some p
  | _ => none

def Ev.isLogRunning : Ev → Bool
  | .logRunning _ => true
  | _ => false

/-- The files a trace records as opened, with their modes, in order. -/
def openedFiles (t : List Ev) : List (StdParam × FileMode) :=
  t.filterMap Ev.openInfo

/-- The files a trace records as closed, in order. -/
def closedFiles (t : List Ev) : List StdParam :=
  t.filterMap Ev.closeInfo

/-- The mode `run` must use for each path parameter: read-binary for stdin,
write-binary for stdout and stderr. -/
def modeFor : StdParam → FileMode
  | .stdinP => .rb
  | _ => .wb

theorem openedFiles_nil : openedFiles [] = [] := rfl

theorem closedFiles_nil : closedFiles [] = [] := rfl

theorem openedFiles_cons_none {x : Ev} (hx : Ev.openInfo x = none) (t : List Ev) :
    openedFiles (x :: t) = openedFiles t := by
  unfold openedFiles
  rw [List.filterMap_cons, hx]

theorem openedFiles_cons_some {x : Ev} {pm : StdParam × FileMode}
    (hx : Ev.openInfo x = some pm) (t : List Ev) :
    openedFiles (x :: t) = pm :: openedFiles t := by
  unfold openedFiles
  rw [List.filterMap_cons, hx]

theorem closedFiles_cons_none {x : Ev} (hx : Ev.closeInfo x = none) (t : List Ev) :
    closedFiles (x :: t) = closedFiles t := by
  unfold closedFiles
  rw [List.filterMap_cons, hx]

theorem closedFiles_cons_some {x : Ev} {p : StdParam}
    (hx : Ev.closeInfo x = some p) (t : List Ev) :
    closedFiles (x :: t) = p :: closedFiles t := by
  unfold closedFiles
  rw [List.filterMap_cons, hx]

theorem openedFiles_append (a b : List Ev) :
    openedFiles (a ++ b) = openedFiles a ++ openedFiles b :=
  List.filterMap_append a b Ev.openInfo

theorem closedFiles_append (a b : List Ev) :
    closedFiles (a ++ b) = closedFiles a ++ closedFiles b :=
  List.filterMap_append a b Ev.closeInfo

theorem openedFiles_readEvs (e : PipeEnd) (avail : List Nat) :
    openedFiles (readEvs e avail) = [] := by
  unfold openedFiles readEvs
  by_cases h : 0 < avail.length <;> simp [h, Ev.openInfo]

theorem closedFiles_readEvs (e : PipeEnd) (avail : List Nat) :
    closedFiles (readEvs e avail) = [] := by
  unfold closedFiles readEvs
  by_cases h : 0 < avail.length <;> simp [h, Ev.closeInfo]

theorem drainLoop_no_file_evs (cycles : List Cycle) (ob eb : LineBuffer) :
    openedFiles (drainLoop cycles ob eb).2.2 = [] ∧
    closedFiles (drainLoop cycles ob eb).2.2 = [] := by
  induction cycles generalizing ob eb with
  | nil => constructor <;> simp [drainLoop, openedFiles, closedFiles]
  | cons cy rest ih =>
    obtain ⟨ih1, ih2⟩ := ih (processFd .outReader cy.outAvail ob).1
      (processFd .errReader cy.errAvail eb).1
    by_cases hcy : cy.exited
    · constructor
      · simp only [drainLoop, hcy, if_pos, processFd_snd, openedFiles_append,
          openedFiles_readEvs]
        simp [openedFiles, Ev.openInfo]
      · simp only [drainLoop, hcy, if_pos, processFd_snd, closedFiles_append,
          closedFiles_readEvs]
        simp [closedFiles, Ev.closeInfo]
    · have hf : cy.exited = false := by
        cases hx : cy.exited
        · rfl
        · exact absurd hx hcy
      constructor
      · simp only [drainLoop, hf, Bool.false_eq_true, if_false, processFd_snd,
          openedFiles_append, openedFiles_readEvs, ih1]
        simp [openedFiles, Ev.openInfo]
      · simp only [drainLoop, hf, Bool.false_eq_true, if_false, processFd_snd,
          closedFiles_append, closedFiles_readEvs, ih2]
        simp [closedFiles, Ev.closeInfo]

theorem runM_no_file_evs (args : List String) (sched : Sched) :
    openedFiles (Command._runM args sched).2 = [] ∧
    closedFiles (Command._runM args sched).2 = [] := by
  obtain ⟨h1, h2⟩ := drainLoop_no_file_evs sched.cycles ⟨[]⟩ ⟨[]⟩
  by_cases h : sched.spawnOk
  · constructor
    · simp only [Command._runM, h, if_pos, processFd_snd]
      simp only [openedFiles_append, openedFiles_readEvs, openedFiles_cons_none,
        openedFiles_nil, Ev.openInfo, h1, List.append_nil, List.nil_append]
    · simp only [Command._runM, h, if_pos, processFd_snd]
      simp only [closedFiles_append, closedFiles_readEvs, closedFiles_cons_none,
        closedFiles_nil, Ev.closeInfo, h2, List.append_nil, List.nil_append]
  · constructor <;>
      simp only [Command._runM, h, Bool.false_eq_true, if_false, openedFiles_append,
        closedFiles_append, openedFiles_cons_none, closedFiles_cons_none,
        openedFiles_nil, closedFiles_nil, Ev.openInfo, Ev.closeInfo, List.append_nil]

theorem runM_head (args : List String) (sched : Sched) :
    ∃ rest, (Command._runM args sched).2 = Ev.logRunning args :: rest := by
  by_cases h : sched.spawnOk <;> simp [Command._runM, h]

/-- Claim C9: `run` opens stdin read-binary and stdout/stderr write-binary,
all before delegating to `_run` (no open happens at or after the delegation
point), and in every environment — success, nonzero exit, spawn failure, or
an `open` of a later parameter raising — the files recorded as closed are
exactly the files recorded as opened, in the same order. -/
theorem claim_C9_run_opens_and_closes (c : Command) (args : List String) (env : RunEnv) :
    openedFiles (c.run args env).2 =
      (closedFiles (c.run args env).2).map (fun p => (p, modeFor p)) ∧
    openedFiles (((c.run args env).2).dropWhile (fun e => !e.isLogRunning)) = [] := by
  obtain ⟨gIn, gOut, gErr, sched⟩ := env
  obtain ⟨rest, hrest⟩ := runM_head (c._args args) sched
  obtain ⟨hM1, hM2⟩ := runM_no_file_evs (c._args args) sched
  rw [hrest] at hM1 hM2
  simp only [openedFiles, closedFiles, List.filterMap_cons, Ev.openInfo, Ev.closeInfo] at hM1 hM2
  have hIn : gIn = none ∨ gIn = some true ∨ gIn = some false := by
    rcases gIn with _ | b
    · exact Or.inl rfl
    · cases b
      · exact Or.inr (Or.inr rfl)
      · exact Or.inr (Or.inl rfl)
  have hOut : gOut = none ∨ gOut = some true ∨ gOut = some false := by
    rcases gOut with _ | b
    · exact Or.inl rfl
    · cases b
      · exact Or.inr (Or.inr rfl)
      · exact Or.inr (Or.inl rfl)
  have hErr : gErr = none ∨ gErr = some true ∨ gErr = some false := by
    rcases gErr with _ | b
    · exact Or.inl rfl
    · cases b
      · exact Or.inr (Or.inr rfl)
      · exact Or.inr (Or.inl rfl)
  rcases hIn with rfl | rfl | rfl <;> rcases hOut with rfl | rfl | rfl <;>
    rcases hErr with rfl | rfl | rfl <;>
    constructor <;>
      simp [Command.run, runBody, runFinally, tryOpen, finallyClose, hrest,
        openedFiles, closedFiles, List.filterMap_append, List.filterMap_cons,
        Ev.openInfo, Ev.closeInfo, Ev.isLogRunning, modeFor, hM1, hM2]

end CommandPy
